import Mathlib

/-!
Verification of the benchmark-orchestration harness in
`syzygy/scripts/benchmark/runner.py`.

The development shallowly embeds the parts of `runner.py` that the
specification talks about:

* the hardware-counter group planner (`BenchmarkRunner._SetupIbmPerf`);
* the iteration loop with its teardown guarantees
  (`ChromeRunner.Run`, `ChromeRunner._RunOneIteration`,
  `BenchmarkRunner.Run`, `BenchmarkRunner._SetUp`,
  `BenchmarkRunner._TearDown`, `BenchmarkRunner._PreIteration`,
  `BenchmarkRunner._PostIteration`);
* the wait-for-ready poll loop (`ChromeRunner._WaitTillChromeRunning`);
* the metric sink and report (`BenchmarkRunner._AddResult`,
  `BenchmarkRunner._ProcessResults`);
* the RPC logging-service handle (`ChromeRunner.StartLoggingRpc`,
  `ChromeRunner.StopLoggingRpc`).

Python sets are modelled as `Finset String` together with an explicit
iteration-order parameter (`iter`), because CPython does not specify the
iteration order of a set; any property that depends on the order in which
`list(some_set)` enumerates elements is stated relative to that parameter.
-/

namespace Sawbuck

/-- The attributes of `ibmperf.HardwarePerformanceCounter` that
`BenchmarkRunner._SetupIbmPerf` reads: the catalog of available metrics
(the key set of the `metrics` dictionary), the always-measured free
metrics, the non-free metrics, and `max_counters`, the maximum number of
non-free counters the hardware can sample at once. -/
structure HardwarePerformanceCounter where
  metrics : Finset String
  free_metrics : Finset String
  non_free_metrics : Finset String
  max_counters : Nat

/-- An iteration-order function for Python sets: `iter s` is the list in
which CPython would enumerate the set `s`.  `ValidIter` states the only
facts the language guarantees: the enumeration has no duplicates and
enumerates exactly the members of `s`. -/
def ValidIter (it : Finset String → List String) : Prop :=
  ∀ s : Finset String, (it s).Nodup ∧ ∀ x, x ∈ it s ↔ x ∈ s

/-- The chunking list comprehension
`[nonfree[i:i + k] for i in range(0, len(nonfree), k)]`.
For `k = 0` Python's `range` raises `ValueError`; that case is cut off in
`setupIbmPerfGroups` below (it returns `none` there), so the `0` equation
here is never reached from the embedded planner. -/
def chunks : List α → Nat → List (List α)
  | [], _ => []
  | _ :: _, 0 => []
  | a :: l, k + 1 =>
    List.take (k + 1) (a :: l) :: chunks (List.drop (k + 1) (a :: l)) (k + 1)
  termination_by l _ => l.length
  decreasing_by simp; omega

/-- The effective metric set of `_SetupIbmPerf`:
`metrics = set(ibmperf_metrics)`, substituting the full catalog when the
request is empty, then `metrics.update(hpc.free_metrics)`. -/
def effectiveMetrics (hpc : HardwarePerformanceCounter)
    (requested : List String) : Finset String :=
  (if requested.toFinset = ∅ then hpc.metrics else requested.toFinset) ∪
    hpc.free_metrics

/-- The group-planning logic of `BenchmarkRunner._SetupIbmPerf`
(`runner.py` lines 600-618).  `it` is the set iteration order used by
`list(metrics.intersection(hpc.non_free_metrics))`.  The result is `none`
exactly when the source would raise (`range` with step `0`, i.e.
`max_counters = 0` with a nonempty non-free selection). -/
def setupIbmPerfGroups (hpc : HardwarePerformanceCounter)
    (requested : List String) (it : Finset String → List String) :
    Option (List (Finset String)) :=
  let nonfree := it (effectiveMetrics hpc requested ∩ hpc.non_free_metrics)
  if 0 < nonfree.length then
    if hpc.max_counters = 0 then none
    else
      some ((chunks nonfree hpc.max_counters).map
        (fun c => c.toFinset ∪ hpc.free_metrics))
  else some [hpc.free_metrics]

theorem chunks_flatten (k : Nat) (hk : 0 < k) :
    ∀ l : List α, (chunks l k).flatten = l := by
  have H : ∀ (n : Nat) (l : List α), l.length ≤ n → (chunks l k).flatten = l := by
    intro n
    induction n with
    | zero =>
      intro l hl
      have hnil : l = [] := List.eq_nil_of_length_eq_zero (Nat.le_zero.mp hl)
      subst hnil
      simp [chunks]
    | succ n ih =>
      intro l hl
      cases l with
      | nil => simp [chunks]
      | cons a l' =>
        cases k with
        | zero => exact absurd hk (by omega)
        | succ k' =>
          rw [chunks]
          rw [List.flatten_cons]
          rw [ih (List.drop (k' + 1) (a :: l')) (by simp at hl ⊢; omega)]
          exact List.take_append_drop _ _
  exact fun l => H l.length l le_rfl

theorem chunks_length_le (k : Nat) :
    ∀ l : List α, ∀ c ∈ chunks l k, c.length ≤ k := by
  have H : ∀ (n : Nat) (l : List α), l.length ≤ n →
      ∀ c ∈ chunks l k, c.length ≤ k := by
    intro n
    induction n with
    | zero =>
      intro l hl c hc
      have hnil : l = [] := List.eq_nil_of_length_eq_zero (Nat.le_zero.mp hl)
      subst hnil
      simp [chunks] at hc
    | succ n ih =>
      intro l hl c hc
      cases l with
      | nil => simp [chunks] at hc
      | cons a l' =>
        cases k with
        | zero => simp [chunks] at hc
        | succ k' =>
          rw [chunks] at hc
          rcases List.mem_cons.mp hc with h | h
          · subst h
            simp
          · exact ih (List.drop (k' + 1) (a :: l')) (by simp at hl ⊢; omega) c h
  exact fun l => H l.length l le_rfl

theorem chunks_one (l : List α) : chunks l 1 = l.map (fun a => [a]) := by
  have H : ∀ (n : Nat) (l : List α), l.length ≤ n →
      chunks l 1 = l.map (fun a => [a]) := by
    intro n
    induction n with
    | zero =>
      intro l hl
      have hnil : l = [] := List.eq_nil_of_length_eq_zero (Nat.le_zero.mp hl)
      subst hnil
      simp [chunks]
    | succ n ih =>
      intro l hl
      cases l with
      | nil => simp [chunks]
      | cons a l' =>
        rw [chunks]
        simp only [List.take, List.drop, List.map_cons]
        rw [ih l' (by simp at hl; omega)]
  exact H l.length l le_rfl

theorem validIter_toFinset {it : Finset String → List String}
    (h : ValidIter it) (s : Finset String) : (it s).toFinset = s := by
  ext x
  simp [(h s).2]

theorem validIter_empty {it : Finset String → List String}
    (h : ValidIter it) : it ∅ = [] := by
  cases he : it ∅ with
  | nil => rfl
  | cons a l =>
    have : a ∈ it ∅ := by rw [he]; exact List.mem_cons_self a l
    have := ((h ∅).2 a).mp this
    simp at this

/-- The planner never produces an empty group list: with non-free
counters selected it returns at least one chunk, and otherwise the single
free-only group. -/
theorem setupIbmPerfGroups_ne_nil (hpc : HardwarePerformanceCounter)
    (requested : List String) (it : Finset String → List String)
    (gs : List (Finset String))
    (h : setupIbmPerfGroups hpc requested it = some gs) : gs ≠ [] := by
  unfold setupIbmPerfGroups at h
  set nonfree := it (effectiveMetrics hpc requested ∩ hpc.non_free_metrics)
    with hnf
  by_cases hpos : 0 < nonfree.length
  · rw [if_pos hpos] at h
    by_cases hmc : hpc.max_counters = 0
    · rw [if_pos hmc] at h
      exact absurd h (by simp)
    · rw [if_neg hmc] at h
      cases hl : nonfree with
      | nil => rw [hl] at hpos; simp at hpos
      | cons a l =>
        cases hmk : hpc.max_counters with
        | zero => exact absurd hmk hmc
        | succ k =>
          have := h.symm
          rw [hl, hmk] at this
          rw [chunks] at this
          intro hgs
          rw [hgs] at this
          simp at this
  · rw [if_neg hpos] at h
    have : gs = [hpc.free_metrics] := by
      have := h
      simp at this
      exact this.symm
    rw [this]
    simp

/-- A concrete admissible set-iteration order: enumerate in sorted order.
Used to discharge `ValidIter` hypotheses on concrete inputs.  (Defined by
an insertion sort lifted over the multiset quotient so that it evaluates
by kernel reduction.) -/
def sortedIter (s : Finset String) : List String :=
  Quotient.liftOn s.val (fun l => List.insertionSort (· ≤ ·) l)
    (fun a b h =>
      List.eq_of_perm_of_sorted
        ((List.perm_insertionSort _ a).trans
          (h.trans (List.perm_insertionSort _ b).symm))
        (List.sorted_insertionSort _ a) (List.sorted_insertionSort _ b))

theorem sortedIter_valid : ValidIter sortedIter := by
  intro s
  rcases s with ⟨m, hnd⟩
  induction m using Quotient.inductionOn with
  | h l =>
    have hp : List.Perm (sortedIter ⟨Quotient.mk _ l, hnd⟩) l :=
      List.perm_insertionSort _ l
    refine ⟨(hp.nodup_iff).mpr (by exact hnd), ?_⟩
    intro x
    rw [hp.mem_iff]
    simp

/-- Another admissible set-iteration order: enumerate in reverse sorted
order.  CPython pins neither of the two. -/
def revIter (s : Finset String) : List String := (sortedIter s).reverse

theorem revIter_valid : ValidIter revIter := by
  intro s
  refine ⟨List.nodup_reverse.mpr (sortedIter_valid s).1, ?_⟩
  intro x
  rw [revIter, List.mem_reverse]
  exact (sortedIter_valid s).2 x

/-- The catalog of the concrete planner scenario of the specification:
free counter `X`, non-free counters `A`, `B`, `C`, `D`, and room for one
non-free counter per run (`maxConcurrent - |free| = 2 - 1 = 1`; the
source's `max_counters` counts non-free counters only, so the spec-level
`maxConcurrent` is `max_counters + |free|`). -/
def hpcScenA : HardwarePerformanceCounter :=
  { metrics := {"A", "B", "C", "D", "X"},
    free_metrics := {"X"},
    non_free_metrics := {"A", "B", "C", "D"},
    max_counters := 1 }

end Sawbuck

namespace Sawbuck

theorem effMetrics_scenA :
    effectiveMetrics hpcScenA ["A", "B", "C"] ∩ hpcScenA.non_free_metrics =
      ({"A", "B", "C"} : Finset String) := by decide

/-- C1: `_SetupIbmPerf` partitions the requested non-free counters into
consecutive chunks of at most `max_counters` elements and unions the free
set into each chunk, so every group has at most
`max_counters + |free| = maxConcurrent` counters (the spec-level
`maxConcurrent` counts the free counters too, since the source's
`max_counters` bounds only the simultaneously sampled non-free counters);
in the concrete scenario (requested `{A,B,C}`, free `{X}`, non-free
`{A,B,C,D}`, `maxConcurrent = 2`, i.e. `max_counters = 1`) the planner
yields exactly the three groups `{A,X}`, `{B,X}`, `{C,X}`, each of
size 2, for every admissible set-iteration order. -/
theorem claim_C1_planner_partition :
    (∀ (hpc : HardwarePerformanceCounter) (requested : List String)
        (it : Finset String → List String), ValidIter it →
        0 < hpc.max_counters →
        ∃ (gs : List (Finset String)) (cs : List (List String)),
          setupIbmPerfGroups hpc requested it = some gs ∧
          gs = cs.map (fun c => c.toFinset ∪ hpc.free_metrics) ∧
          cs.flatten =
            it (effectiveMetrics hpc requested ∩ hpc.non_free_metrics) ∧
          (∀ c ∈ cs, c.length ≤ hpc.max_counters) ∧
          (∀ g ∈ gs, g.card ≤ hpc.max_counters + hpc.free_metrics.card)) ∧
    (∀ it2, ValidIter it2 →
        ∃ gs, setupIbmPerfGroups hpcScenA ["A", "B", "C"] it2 = some gs ∧
          gs.length = 3 ∧ (∀ g ∈ gs, g.card = 2) ∧
          (gs : Multiset (Finset String)) =
            {({"A", "X"} : Finset String), {"B", "X"}, {"C", "X"}}) := by
  constructor
  · intro hpc requested it hvi hk
    by_cases hpos :
        0 < (it (effectiveMetrics hpc requested ∩ hpc.non_free_metrics)).length
    · refine ⟨_,
        chunks (it (effectiveMetrics hpc requested ∩ hpc.non_free_metrics))
          hpc.max_counters, ?_, rfl, chunks_flatten _ hk _,
        chunks_length_le _ _, ?_⟩
      · unfold setupIbmPerfGroups
        rw [if_pos hpos, if_neg (by omega)]
      · intro g hg
        obtain ⟨c, hc, rfl⟩ := List.mem_map.mp hg
        have h1 := Finset.card_union_le c.toFinset hpc.free_metrics
        have h2 := List.toFinset_card_le c
        have h3 := chunks_length_le hpc.max_counters _ c hc
        omega
    · have hnil : it (effectiveMetrics hpc requested ∩ hpc.non_free_metrics)
          = [] :=
        List.eq_nil_of_length_eq_zero (by omega)
      refine ⟨[hpc.free_metrics], [[]], ?_, by simp, by simp [hnil], ?_, ?_⟩
      · unfold setupIbmPerfGroups
        rw [if_neg hpos]
      · intro c hc
        simp at hc
        simp [hc]
      · intro g hg
        simp at hg
        simp [hg]
  · intro it2 hvi2
    have hnd : (it2 ({"A", "B", "C"} : Finset String)).Nodup :=
      (hvi2 _).1
    have hperm : List.Perm (it2 ({"A", "B", "C"} : Finset String))
        ["A", "B", "C"] :=
      List.perm_of_nodup_nodup_toFinset_eq hnd (by decide)
        (by rw [validIter_toFinset hvi2]; decide)
    have hlen : (it2 ({"A", "B", "C"} : Finset String)).length = 3 :=
      hperm.length_eq
    refine ⟨(it2 ({"A", "B", "C"} : Finset String)).map
        (fun a => [a].toFinset ∪ hpcScenA.free_metrics), ?_, ?_, ?_, ?_⟩
    · unfold setupIbmPerfGroups
      rw [effMetrics_scenA]
      rw [if_pos (by omega), if_neg (by decide)]
      have hmc : hpcScenA.max_counters = 1 := rfl
      rw [hmc, chunks_one, List.map_map]
      rfl
    · simp [hlen]
    · intro g hg
      obtain ⟨a, ha, rfl⟩ := List.mem_map.mp hg
      have hcase : a = "A" ∨ a = "B" ∨ a = "C" := by
        simpa using hperm.mem_iff.mp ha
      rcases hcase with rfl | rfl | rfl
      · decide
      · decide
      · decide
    · have := hperm.map (fun a => [a].toFinset ∪ hpcScenA.free_metrics)
      calc ((it2 ({"A", "B", "C"} : Finset String)).map
              (fun a => [a].toFinset ∪ hpcScenA.free_metrics) :
            Multiset (Finset String))
          = (["A", "B", "C"].map
              (fun a => [a].toFinset ∪ hpcScenA.free_metrics) :
            Multiset (Finset String)) := Multiset.coe_eq_coe.mpr this
        _ = {({"A", "X"} : Finset String), {"B", "X"}, {"C", "X"}} := by
            decide

/-- Witness for C1 at the concrete scenario catalog with the sorted
set-iteration order. -/
theorem claim_C1_witness :
    (∃ (gs : List (Finset String)) (cs : List (List String)),
        setupIbmPerfGroups hpcScenA ["A", "B", "C"] sortedIter = some gs ∧
        gs = cs.map (fun c => c.toFinset ∪ hpcScenA.free_metrics) ∧
        cs.flatten = sortedIter
          (effectiveMetrics hpcScenA ["A", "B", "C"] ∩
            hpcScenA.non_free_metrics) ∧
        (∀ c ∈ cs, c.length ≤ hpcScenA.max_counters) ∧
        (∀ g ∈ gs,
          g.card ≤ hpcScenA.max_counters + hpcScenA.free_metrics.card)) ∧
    (∃ gs, setupIbmPerfGroups hpcScenA ["A", "B", "C"] sortedIter = some gs ∧
        gs.length = 3 ∧ (∀ g ∈ gs, g.card = 2) ∧
        (gs : Multiset (Finset String)) =
          {({"A", "X"} : Finset String), {"B", "X"}, {"C", "X"}}) :=
  ⟨claim_C1_planner_partition.1 hpcScenA ["A", "B", "C"] sortedIter
      sortedIter_valid (by decide),
    claim_C1_planner_partition.2 sortedIter sortedIter_valid⟩

/-- The requested set after the empty-request substitution
(`if len(metrics) == 0: metrics = set(hpc.metrics.keys())`), before the
free metrics are unioned in. -/
def effReq (hpc : HardwarePerformanceCounter) (requested : List String) :
    Finset String :=
  if requested.toFinset = ∅ then hpc.metrics else requested.toFinset

theorem effectiveMetrics_eq (hpc : HardwarePerformanceCounter)
    (requested : List String) :
    effectiveMetrics hpc requested = effReq hpc requested ∪ hpc.free_metrics :=
  rfl

/-- Union of a list of finsets, used to state what the groups jointly
cover. -/
def unionAll : List (Finset String) → Finset String
  | [] => ∅
  | g :: gs => g ∪ unionAll gs

theorem unionAll_map_toFinset (cs : List (List String)) :
    unionAll (cs.map List.toFinset) = cs.flatten.toFinset := by
  induction cs with
  | nil => simp [unionAll]
  | cons c cs ih => simp [unionAll, ih]

/-- With a nonempty catalog, planning with an empty request is the same
as planning with the full catalog as the request. -/
theorem setupIbmPerfGroups_empty_req (hpc : HardwarePerformanceCounter)
    (it : Finset String → List String) (u : List String)
    (hu : u.toFinset = hpc.metrics) (hne : hpc.metrics ≠ ∅) :
    setupIbmPerfGroups hpc [] it = setupIbmPerfGroups hpc u it := by
  have heff : effectiveMetrics hpc [] = effectiveMetrics hpc u := by
    unfold effectiveMetrics
    rw [hu]
    simp [hne]
  unfold setupIbmPerfGroups
  rw [heff]

/-- C8: every group produced by `_SetupIbmPerf` contains the free set;
the groups minus the free set jointly cover exactly the (effective)
requested non-free counters and are pairwise disjoint outside the free
set; an empty non-free selection yields the single free-only group; and
an empty request is replaced by the full catalog before planning. -/
theorem claim_C8_planner_group_laws (hpc : HardwarePerformanceCounter)
    (requested : List String) (it : Finset String → List String)
    (hvi : ValidIter it) (hk : 0 < hpc.max_counters)
    (hdisj : Disjoint hpc.free_metrics hpc.non_free_metrics) :
    ∃ gs : List (Finset String),
      setupIbmPerfGroups hpc requested it = some gs ∧
      (∀ g ∈ gs, hpc.free_metrics ⊆ g) ∧
      unionAll (gs.map (fun g => g \ hpc.free_metrics)) =
        effReq hpc requested ∩ hpc.non_free_metrics ∧
      gs.Pairwise (fun g1 g2 =>
        Disjoint (g1 \ hpc.free_metrics) (g2 \ hpc.free_metrics)) ∧
      (effReq hpc requested ∩ hpc.non_free_metrics = ∅ →
        gs = [hpc.free_metrics]) ∧
      (∀ u : List String, u.toFinset = hpc.metrics → hpc.metrics ≠ ∅ →
        setupIbmPerfGroups hpc [] it = setupIbmPerfGroups hpc u it) := by
  have hfreeNF : hpc.free_metrics ∩ hpc.non_free_metrics = ∅ :=
    Finset.disjoint_iff_inter_eq_empty.mp hdisj
  have hsplit : effectiveMetrics hpc requested ∩ hpc.non_free_metrics =
      effReq hpc requested ∩ hpc.non_free_metrics := by
    rw [effectiveMetrics_eq, Finset.union_inter_distrib_right, hfreeNF,
      Finset.union_empty]
  have htf : (it (effectiveMetrics hpc requested ∩
      hpc.non_free_metrics)).toFinset =
      effReq hpc requested ∩ hpc.non_free_metrics := by
    rw [validIter_toFinset hvi, hsplit]
  by_cases hpos :
      0 < (it (effectiveMetrics hpc requested ∩ hpc.non_free_metrics)).length
  · set nf := it (effectiveMetrics hpc requested ∩ hpc.non_free_metrics)
      with hnf
    have hNFmem : ∀ x ∈ nf, x ∈ hpc.non_free_metrics := by
      intro x hx
      have : x ∈ nf.toFinset := List.mem_toFinset.mpr hx
      rw [htf] at this
      exact (Finset.mem_inter.mp this).2
    have hchdisj : ∀ c ∈ chunks nf hpc.max_counters,
        Disjoint c.toFinset hpc.free_metrics := by
      intro c hc
      rw [Finset.disjoint_left]
      intro x hx hxf
      have hxc : x ∈ c := List.mem_toFinset.mp hx
      have hxnf : x ∈ nf := by
        rw [← chunks_flatten hpc.max_counters hk nf]
        exact List.mem_flatten.mpr ⟨c, hc, hxc⟩
      exact (Finset.disjoint_left.mp hdisj) hxf (hNFmem x hxnf)
    refine ⟨(chunks nf hpc.max_counters).map
        (fun c => c.toFinset ∪ hpc.free_metrics), ?_, ?_, ?_, ?_, ?_,
        setupIbmPerfGroups_empty_req hpc it⟩
    · unfold setupIbmPerfGroups
      rw [← hnf, if_pos hpos, if_neg (by omega)]
    · intro g hg
      obtain ⟨c, hc, rfl⟩ := List.mem_map.mp hg
      exact Finset.subset_union_right
    · have hmaps : ((chunks nf hpc.max_counters).map
          (fun c => c.toFinset ∪ hpc.free_metrics)).map
            (fun g => g \ hpc.free_metrics) =
          (chunks nf hpc.max_counters).map List.toFinset := by
        rw [List.map_map]
        refine List.map_congr_left ?_
        intro c hc
        show (c.toFinset ∪ hpc.free_metrics) \ hpc.free_metrics = c.toFinset
        rw [Finset.union_sdiff_right]
        exact Finset.sdiff_eq_self_of_disjoint (hchdisj c hc)
      rw [hmaps, unionAll_map_toFinset, chunks_flatten hpc.max_counters hk,
        htf]
    · have hnd : nf.Nodup := (hvi _).1
      have hfl : (chunks nf hpc.max_counters).flatten.Nodup := by
        rw [chunks_flatten hpc.max_counters hk]
        exact hnd
      have hpw := (List.nodup_flatten.mp hfl).2
      rw [List.pairwise_map]
      refine hpw.imp ?_
      intro c1 c2 h12
      have hd : Disjoint c1.toFinset c2.toFinset := by
        rw [Finset.disjoint_left]
        intro x hx1 hx2
        exact h12 (List.mem_toFinset.mp hx1) (List.mem_toFinset.mp hx2)
      refine hd.mono ?_ ?_ <;>
        · rw [Finset.union_sdiff_right]
          exact Finset.sdiff_subset
    · intro hempty
      exfalso
      have : nf.toFinset = ∅ := by rw [htf, hempty]
      have hnfnil : nf = [] := (List.toFinset_eq_empty_iff nf).mp this
      rw [hnfnil] at hpos
      simp at hpos
  · have hnil : it (effectiveMetrics hpc requested ∩ hpc.non_free_metrics)
        = [] :=
      List.eq_nil_of_length_eq_zero (by omega)
    have hint : effReq hpc requested ∩ hpc.non_free_metrics = ∅ := by
      rw [← htf, hnil]
      rfl
    refine ⟨[hpc.free_metrics], ?_, ?_, ?_, ?_, fun _ => rfl,
        setupIbmPerfGroups_empty_req hpc it⟩
    · unfold setupIbmPerfGroups
      rw [if_neg hpos]
    · intro g hg
      simp at hg
      rw [hg]
    · simp [unionAll, hint]
    · simp

/-- Witness for C8 at the concrete scenario catalog with the sorted
set-iteration order. -/
theorem claim_C8_witness :
    ∃ gs : List (Finset String),
      setupIbmPerfGroups hpcScenA ["A", "B", "C"] sortedIter = some gs ∧
      (∀ g ∈ gs, hpcScenA.free_metrics ⊆ g) ∧
      unionAll (gs.map (fun g => g \ hpcScenA.free_metrics)) =
        effReq hpcScenA ["A", "B", "C"] ∩ hpcScenA.non_free_metrics ∧
      gs.Pairwise (fun g1 g2 =>
        Disjoint (g1 \ hpcScenA.free_metrics) (g2 \ hpcScenA.free_metrics)) ∧
      (effReq hpcScenA ["A", "B", "C"] ∩ hpcScenA.non_free_metrics = ∅ →
        gs = [hpcScenA.free_metrics]) ∧
      (∀ u : List String, u.toFinset = hpcScenA.metrics →
        hpcScenA.metrics ≠ ∅ →
        setupIbmPerfGroups hpcScenA [] sortedIter =
          setupIbmPerfGroups hpcScenA u sortedIter) :=
  claim_C8_planner_group_laws hpcScenA ["A", "B", "C"] sortedIter
    sortedIter_valid (by decide) (by decide)

/-- A catalog with no free metrics, three non-free metrics and room for
two concurrent non-free counters: chunking `{A,B,C}` into pairs makes the
group contents depend on the enumeration order. -/
def hpcScenB : HardwarePerformanceCounter :=
  { metrics := {"A", "B", "C"},
    free_metrics := ∅,
    non_free_metrics := {"A", "B", "C"},
    max_counters := 2 }

/-- C5 counterexample: the chunk order of `_SetupIbmPerf` is the
iteration order of the Python set `metrics.intersection(non_free)` — an
interpreter artifact — not the declaration order of the counter catalog.
Two admissible set-iteration orders over identical planner inputs
(identical requested, free and non-free sets and limit) produce different
group lists, so the output order is not determined by the inputs the
claim names, and in particular is not the catalog declaration order. -/
theorem claim_C5_counterexample :
    ValidIter sortedIter ∧ ValidIter revIter ∧
    setupIbmPerfGroups hpcScenB ["A", "B", "C"] sortedIter ≠
      setupIbmPerfGroups hpcScenB ["A", "B", "C"] revIter :=
  ⟨sortedIter_valid, revIter_valid, by with_unfolding_all decide⟩

/-- C5 (amended): the planner is insensitive to the insertion order and
multiplicity of the requested metric list (the request is converted to a
set before use), so for a fixed interpreter set-iteration order two calls
with the same requested set produce identical groups in both content and
order; the chunk order itself is the interpreter's set-iteration order,
not the catalog declaration order. -/
theorem claim_C5_deterministic_given_iteration_order
    (hpc : HardwarePerformanceCounter) (it : Finset String → List String)
    (req1 req2 : List String) (h : req1.toFinset = req2.toFinset) :
    setupIbmPerfGroups hpc req1 it = setupIbmPerfGroups hpc req2 it := by
  unfold setupIbmPerfGroups effectiveMetrics
  rw [h]

/-- Witness for the amended C5: a request list with duplicates and
different insertion order plans identically to its deduplicated sorted
form. -/
theorem claim_C5_witness :
    (["B", "A", "A"] : List String).toFinset =
      (["A", "B"] : List String).toFinset ∧
    setupIbmPerfGroups hpcScenB ["B", "A", "A"] sortedIter =
      setupIbmPerfGroups hpcScenB ["A", "B"] sortedIter :=
  ⟨by decide,
    claim_C5_deterministic_given_iteration_order hpcScenB sortedIter
      ["B", "A", "A"] ["A", "B"] (by decide)⟩

/-- A metric key: the `(graph_name, trace_name)` pair used to key
`BenchmarkRunner._results`. -/
abbrev MetricKey := String × String

/-- The `_results` dictionary: each key maps to `(units, samples)`.
Samples are modelled by their textual representation (the report prints
`str(sample_list)` and never computes with the numbers).  The list models
the dictionary in insertion order; the report sorts keys, and
permutation-invariance of the report is proved below. -/
abbrev Sink := List (MetricKey × (String × List String))

/-- Dictionary lookup `self._results[key]`. -/
def lookupKey : Sink → MetricKey → Option (String × List String)
  | [], _ => none
  | e :: rest, k => if e.1 = k then some e.2 else lookupKey rest k

/-- `BenchmarkRunner._AddResult` (`runner.py` lines 585-589):
`results = self._results.setdefault((graph_name, trace_name), (units, []))`
followed by `results[1].append(sample)`.  When the key is present the
stored pair is kept (the `units` argument is ignored) and the sample is
appended; otherwise the key is inserted with the given units.  The Python
default for `units` is the empty string. -/
def addResult (s : Sink) (graph_name trace_name sample units : String) :
    Sink :=
  match lookupKey s (graph_name, trace_name) with
  | some _ =>
    s.map (fun e =>
      if e.1 = (graph_name, trace_name) then
        (e.1, (e.2.1, e.2.2 ++ [sample]))
      else e)
  | none => s ++ [((graph_name, trace_name), (units, [sample]))]

/-- The comparison `sorted(self._results.keys())` uses: Python tuple
comparison, i.e. lexicographic on the string pair. -/
def keyLe (a b : MetricKey) : Prop :=
  a.1 < b.1 ∨ (a.1 = b.1 ∧ a.2 ≤ b.2)

instance : DecidableRel keyLe := fun a b => by
  unfold keyLe
  exact inferInstance

instance : IsTotal MetricKey keyLe := by
  constructor
  intro a b
  rcases lt_trichotomy a.1 b.1 with h | h | h
  · exact Or.inl (Or.inl h)
  · rcases le_total a.2 b.2 with h2 | h2
    · exact Or.inl (Or.inr ⟨h, h2⟩)
    · exact Or.inr (Or.inr ⟨h.symm, h2⟩)
  · exact Or.inr (Or.inl h)

instance : IsTrans MetricKey keyLe := by
  constructor
  intro a b c hab hbc
  rcases hab with h1 | ⟨h1, h1'⟩
  · rcases hbc with h2 | ⟨h2, _⟩
    · exact Or.inl (h1.trans h2)
    · exact Or.inl (h2 ▸ h1)
  · rcases hbc with h2 | ⟨h2, h2'⟩
    · exact Or.inl (h1 ▸ h2)
    · exact Or.inr ⟨h1.trans h2, h1'.trans h2'⟩

instance : IsAntisymm MetricKey keyLe := by
  constructor
  intro a b hab hba
  rcases hab with h1 | ⟨h1, h1'⟩
  · rcases hba with h2 | ⟨h2, _⟩
    · exact absurd (h1.trans h2) (lt_irrefl _)
    · exact absurd h1 (h2 ▸ lt_irrefl _)
  · rcases hba with h2 | ⟨h2, h2'⟩
    · exact absurd h2 (h1 ▸ lt_irrefl _)
    · exact Prod.ext h1 (le_antisymm h1' h2')

/-- `sorted(keys)`: any correct sort of a duplicate-free key list is the
unique `keyLe`-sorted permutation; insertion sort realizes it. -/
def sortKeys (ks : List MetricKey) : List MetricKey :=
  List.insertionSort keyLe ks

/-- `str(sample_list)` for the modelled samples:
`"[" + ", ".join(reprs) + "]"`. -/
def formatSamples (vs : List String) : String :=
  "[" ++ String.intercalate ", " vs ++ "]"

/-- One report line,
`"RESULT %s: %s= %s %s" % (graph_name, trace_name, str(results), units)`. -/
def resultLine (graph_name trace_name units : String) (vs : List String) :
    String :=
  "RESULT " ++ graph_name ++ ": " ++ trace_name ++ "= " ++
    formatSamples vs ++ " " ++ units

/-- `BenchmarkRunner._ProcessResults` (`runner.py` lines 570-583): one
line per key, keys in sorted order. -/
def processResults (s : Sink) : List String :=
  (sortKeys (s.map Prod.fst)).map (fun k =>
    match lookupKey s k with
    | some uv => resultLine k.1 k.2 uv.1 uv.2
    | none => "")

theorem lookupKey_eq_none_iff (s : Sink) (k : MetricKey) :
    lookupKey s k = none ↔ k ∉ s.map Prod.fst := by
  induction s with
  | nil => simp [lookupKey]
  | cons e rest ih =>
    by_cases h : e.1 = k
    · simp [lookupKey, h]
    · have h' : ¬k = e.1 := fun hh => h hh.symm
      simp [lookupKey, h, ih, h']

theorem lookupKey_eq_some_of_mem (s : Sink)
    (hnd : (s.map Prod.fst).Nodup) (k : MetricKey) (v : String × List String)
    (hm : (k, v) ∈ s) : lookupKey s k = some v := by
  induction s with
  | nil => cases hm
  | cons e rest ih =>
    rcases List.mem_cons.mp hm with h | h
    · rw [← h]
      simp [lookupKey]
    · have hne : e.1 ≠ k := by
        intro he
        have : k ∈ rest.map Prod.fst :=
          List.mem_map.mpr ⟨(k, v), h, rfl⟩
        rw [List.map_cons, List.nodup_cons, he] at hnd
        exact hnd.1 this
      rw [lookupKey, if_neg hne]
      exact ih (by rw [List.map_cons, List.nodup_cons] at hnd; exact hnd.2) h

theorem mem_of_lookupKey_eq_some (s : Sink) (k : MetricKey)
    (v : String × List String) (h : lookupKey s k = some v) : (k, v) ∈ s := by
  induction s with
  | nil => cases h
  | cons e rest ih =>
    by_cases he : e.1 = k
    · rw [lookupKey, if_pos he] at h
      have : v = e.2 := by
        injection h with h
        exact h.symm
      rw [this, ← he]
      exact List.mem_cons_self _ _
    · rw [lookupKey, if_neg he] at h
      exact List.mem_cons_of_mem _ (ih h)

theorem lookupKey_perm (s s' : Sink) (hnd : (s.map Prod.fst).Nodup)
    (hp : List.Perm s s') (k : MetricKey) :
    lookupKey s k = lookupKey s' k := by
  cases h' : lookupKey s' k with
  | none =>
    rw [lookupKey_eq_none_iff] at h' ⊢
    intro hk
    exact h' ((hp.map Prod.fst).mem_iff.mp hk)
  | some v =>
    exact lookupKey_eq_some_of_mem s hnd k v
      (hp.mem_iff.mpr (mem_of_lookupKey_eq_some s' k v h'))

theorem processResults_perm (s s' : Sink)
    (hnd : (s.map Prod.fst).Nodup) (hp : List.Perm s s') :
    processResults s = processResults s' := by
  have hkeys : sortKeys (s.map Prod.fst) = sortKeys (s'.map Prod.fst) :=
    List.eq_of_perm_of_sorted
      ((List.perm_insertionSort _ _).trans
        ((hp.map Prod.fst).trans (List.perm_insertionSort _ _).symm))
      (List.sorted_insertionSort _ _) (List.sorted_insertionSort _ _)
  unfold processResults
  rw [hkeys]
  refine List.map_congr_left ?_
  intro k _
  rw [lookupKey_perm s s' hnd hp k]

/-- C7: the report has exactly one line per metric key; the keys are
iterated in `keyLe`-sorted (lexicographic on the `(graph_name,
trace_name)` pair) order; each line is exactly
`RESULT <graph>: <trace>= [<v1>, <v2>, ...] <unit>`; and the report does
not depend on the order in which the sink entries were recorded. -/
theorem claim_C7_report_format_and_order (s : Sink)
    (hnd : (s.map Prod.fst).Nodup) :
    (processResults s).length = s.length ∧
    List.Sorted keyLe (sortKeys (s.map Prod.fst)) ∧
    List.Perm (sortKeys (s.map Prod.fst)) (s.map Prod.fst) ∧
    processResults s = (sortKeys (s.map Prod.fst)).map (fun k =>
      match lookupKey s k with
      | some uv => "RESULT " ++ k.1 ++ ": " ++ k.2 ++ "= " ++
          ("[" ++ String.intercalate ", " uv.2 ++ "]") ++ " " ++ uv.1
      | none => "") ∧
    (∀ s' : Sink, List.Perm s s' → processResults s = processResults s') := by
  refine ⟨?_, List.sorted_insertionSort _ _, List.perm_insertionSort _ _,
    rfl, fun s' hp => processResults_perm s s' hnd hp⟩
  unfold processResults sortKeys
  rw [List.length_map,
    (List.perm_insertionSort keyLe (s.map Prod.fst)).length_eq,
    List.length_map]

/-- A concrete sink recorded out of key order: key `(Chrome, Zeta)`
first. -/
def sinkW : Sink :=
  [(("Chrome", "Zeta"), ("s", ["0.1", "0.2"])),
   (("Chrome", "Alpha"), ("ms", ["3"]))]

/-- Witness for C7 on `sinkW`; the explicit report shows the sorted
order and the exact line shape. -/
theorem claim_C7_witness :
    (processResults sinkW).length = sinkW.length ∧
    List.Sorted keyLe (sortKeys (sinkW.map Prod.fst)) ∧
    processResults sinkW =
      ["RESULT Chrome: Alpha= [3] ms", "RESULT Chrome: Zeta= [0.1, 0.2] s"] :=
  ⟨(claim_C7_report_format_and_order sinkW (by decide)).1,
    (claim_C7_report_format_and_order sinkW (by decide)).2.1,
    by with_unfolding_all decide⟩

theorem lookupKey_map_update (s : Sink) (k0 : MetricKey)
    (f : String × List String → String × List String) :
    lookupKey (s.map (fun e => if e.1 = k0 then (e.1, f e.2) else e)) k0 =
      (lookupKey s k0).map f := by
  induction s with
  | nil => simp [lookupKey]
  | cons e rest ih =>
    by_cases h : e.1 = k0
    · simp [lookupKey, h]
    · simp [lookupKey, h, ih]

theorem lookupKey_map_update_other (s : Sink) (k0 k : MetricKey)
    (hk : k ≠ k0)
    (f : String × List String → String × List String) :
    lookupKey (s.map (fun e => if e.1 = k0 then (e.1, f e.2) else e)) k =
      lookupKey s k := by
  induction s with
  | nil => simp [lookupKey]
  | cons e rest ih =>
    by_cases h : e.1 = k0
    · have h3 : ¬k0 = k := fun hh => hk hh.symm
      simp [lookupKey, h, h3, ih]
    · by_cases h2 : e.1 = k
      · have h3 : ¬k = k0 := h2 ▸ h
        simp [lookupKey, h, h2, h3]
      · simp [lookupKey, h, h2, ih]

theorem lookupKey_append_single (s : Sink) (e : MetricKey × (String × List String))
    (k : MetricKey) :
    lookupKey (s ++ [e]) k =
      match lookupKey s k with
      | some v => some v
      | none => if e.1 = k then some e.2 else none := by
  induction s with
  | nil => simp [lookupKey]
  | cons e' rest ih =>
    by_cases h : e'.1 = k
    · simp [lookupKey, h]
    · simp [lookupKey, h, ih]

theorem lookupKey_addResult_existing (s : Sink) (g t v u : String)
    (p : String × List String) (h : lookupKey s (g, t) = some p) :
    lookupKey (addResult s g t v u) (g, t) = some (p.1, p.2 ++ [v]) := by
  unfold addResult
  rw [h]
  rw [lookupKey_map_update s (g, t) (fun q => (q.1, q.2 ++ [v]))]
  rw [h]
  rfl

theorem lookupKey_addResult_new (s : Sink) (g t v u : String)
    (h : lookupKey s (g, t) = none) :
    lookupKey (addResult s g t v u) (g, t) = some (u, [v]) := by
  unfold addResult
  rw [h]
  rw [lookupKey_append_single]
  rw [h]
  simp

theorem lookupKey_addResult_other (s : Sink) (g t v u : String)
    (k : MetricKey) (hk : k ≠ (g, t)) :
    lookupKey (addResult s g t v u) k = lookupKey s k := by
  unfold addResult
  have hgt : ¬((g, t) : MetricKey) = k := fun hh => hk hh.symm
  cases h : lookupKey s (g, t) with
  | some p =>
    exact lookupKey_map_update_other s (g, t) k hk
      (fun q => (q.1, q.2 ++ [v]))
  | none =>
    rw [lookupKey_append_single]
    cases h2 : lookupKey s k with
    | some v2 => rfl
    | none => simp [hgt]

/-- One call to `_AddResult`, as recorded by a caller:
`_AddResult(graph_name, trace_name, sample, units)` (with `units = \x22\x22`
when the caller relies on the Python default). -/
structure RecOp where
  graph_name : String
  trace_name : String
  sample : String
  units : String

/-- A sequence of `_AddResult` calls applied to a sink, first call
first. -/
def applyOps : Sink → List RecOp → Sink
  | s, [] => s
  | s, o :: rest =>
    applyOps (addResult s o.graph_name o.trace_name o.sample o.units) rest

/-- Whether a recorded call targets the key `(g, t)`. -/
def opMatches (g t : String) (o : RecOp) : Bool :=
  decide (o.graph_name = g) && decide (o.trace_name = t)

theorem applyOps_units (ops : List RecOp) : ∀ (s : Sink) (g t : String),
    (lookupKey (applyOps s ops) (g, t)).map Prod.fst =
      match lookupKey s (g, t) with
      | some p => some p.1
      | none => (ops.find? (opMatches g t)).map RecOp.units := by
  induction ops with
  | nil =>
    intro s g t
    cases h : lookupKey s (g, t) <;> simp [applyOps, h]
  | cons o rest ih =>
    intro s g t
    rw [applyOps]
    by_cases hm : o.graph_name = g ∧ o.trace_name = t
    · have hmb : opMatches g t o = true := by
        simp [opMatches, hm.1, hm.2]
      cases h : lookupKey s (g, t) with
      | some p =>
        have h' := lookupKey_addResult_existing s g t o.sample o.units p
          (by rw [← hm.1, ← hm.2] at h ⊢; exact h)
        rw [← hm.1, ← hm.2] at h' ⊢
        rw [ih _ o.graph_name o.trace_name, h']
      | none =>
        have h' := lookupKey_addResult_new s g t o.sample o.units
          (by rw [← hm.1, ← hm.2] at h ⊢; exact h)
        rw [← hm.1, ← hm.2] at h' ⊢
        rw [ih _ o.graph_name o.trace_name, h']
        rw [hm.1, hm.2] at h' ⊢
        rw [List.find?_cons_of_pos _ hmb]
        rfl
    · have hmb : opMatches g t o = false := by
        simp [opMatches]
        intro h1
        exact fun h2 => hm ⟨h1, h2⟩
      have hk : ((g, t) : MetricKey) ≠ (o.graph_name, o.trace_name) := by
        intro hh
        injection hh with hh1 hh2
        exact hm ⟨hh1.symm, hh2.symm⟩
      rw [ih _ g t,
        lookupKey_addResult_other s o.graph_name o.trace_name _ _ _ hk,
        List.find?_cons_of_neg _ (by simp [hmb])]

/-- C10: starting from an empty sink, the unit stored (and later
reported) for a metric key is the `units` argument of the first
`_AddResult` call targeting that key; the `units` argument of every
subsequent call to the same key is ignored, so a key's unit never changes
once the key exists.  (A caller omitting `units` passes the Python
default, the empty string.) -/
theorem claim_C10_units_from_first_recording :
    (∀ (ops : List RecOp) (g t : String),
      (lookupKey (applyOps [] ops) (g, t)).map Prod.fst =
        (ops.find? (opMatches g t)).map RecOp.units) ∧
    (∀ (s : Sink) (g t v u : String) (p : String × List String),
      lookupKey s (g, t) = some p →
      (lookupKey (addResult s g t v u) (g, t)).map Prod.fst = some p.1) := by
  constructor
  · intro ops g t
    rw [applyOps_units ops [] g t]
    rfl
  · intro s g t v u p h
    rw [lookupKey_addResult_existing s g t v u p h]
    rfl

/-- Witness for C10: two recordings to the same key with different units
keep the first unit. -/
theorem claim_C10_witness :
    (lookupKey (applyOps []
        [⟨"Chrome", "T", "1", "s"⟩, ⟨"Chrome", "T", "2", "ms"⟩])
      ("Chrome", "T")).map Prod.fst =
      ([(⟨"Chrome", "T", "1", "s"⟩ : RecOp), ⟨"Chrome", "T", "2", "ms"⟩].find?
        (opMatches "Chrome" "T")).map RecOp.units ∧
    (lookupKey (addResult [(("Chrome", "T"), ("s", ["1"]))]
        "Chrome" "T" "2" "ms") ("Chrome", "T")).map Prod.fst = some "s" :=
  ⟨claim_C10_units_from_first_recording.1
      [⟨"Chrome", "T", "1", "s"⟩, ⟨"Chrome", "T", "2", "ms"⟩] "Chrome" "T",
    claim_C10_units_from_first_recording.2
      [(("Chrome", "T"), ("s", ["1"]))] "Chrome" "T" "2" "ms" ("s", ["1"])
      (by rfl)⟩

/-- The three instance fields of `ChromeRunner` that hold the RPC
logging-service handle (`runner.py` lines 138-140): the `subprocess.Popen`
object, the log-file path, and the open log-file object.  Process and
file objects are modelled by numeric identifiers. -/
structure RpcState where
  call_trace_service : Option Nat
  call_trace_log_path : Option String
  call_trace_log_file : Option Nat
deriving DecidableEq

/-- The `RunnerError` outcomes of the RPC start/stop methods, plus the
`AttributeError` crash of calling `wait()` on a `None` handle. -/
inductive RpcErr
  | startFailed (status : Int)
  | stopCmdFailed
  | stopBadStatus (status : Int)
  | noHandleCrash
deriving DecidableEq

/-- `ChromeRunner.StartLoggingRpc` (`runner.py` lines 181-216).  `pid` and
`fileHandle` stand for the fresh `Popen` object and the freshly opened log
file; `earlyStatus = some status` means the liveness poll found the
service exited with `status` within the 5-second check, in which case the
source dumps the log (closing the file), clears the fields and raises.
Note that the method never reads the previous field values: a prior
active handle is silently overwritten. -/
def startLoggingRpc (_st : RpcState) (log_dir : String)
    (pid fileHandle : Nat) (earlyStatus : Option Int) :
    RpcState × Option RpcErr :=
  let path := log_dir ++ "/call_trace_service_log.txt"
  let running : RpcState :=
    { call_trace_service := some pid,
      call_trace_log_path := some path,
      call_trace_log_file := some fileHandle }
  match earlyStatus with
  | none => (running, none)
  | some status =>
    ({ call_trace_service := none, call_trace_log_path := none,
       call_trace_log_file := none }, some (.startFailed status))

/-- `ChromeRunner.StopLoggingRpc` (`runner.py` lines 218-241).
`stopCmdStatus` is the exit code of the external `stop` command (a
non-zero code raises before the handle is touched); `waitStatus` is the
service's own exit status observed by `wait()` (the fields are cleared
before that status is checked).  Calling with no active handle reaches
`None.wait()`, an `AttributeError`. -/
def stopLoggingRpc (st : RpcState) (stopCmdStatus waitStatus : Int) :
    RpcState × Option RpcErr :=
  if stopCmdStatus ≠ 0 then (st, some .stopCmdFailed)
  else
    match st.call_trace_service with
    | none => (st, some .noHandleCrash)
    | some _ =>
      ({ call_trace_service := none, call_trace_log_path := none,
         call_trace_log_file := none },
       if waitStatus ≠ 0 then some (.stopBadStatus waitStatus) else none)

/-- A state in which an RPC logging service is already active. -/
def activeRpcState : RpcState :=
  { call_trace_service := some 1,
    call_trace_log_path := some "logs/call_trace_service_log.txt",
    call_trace_log_file := some 1 }

/-- C9 counterexample: with service 1 active, starting a second logging
service is neither rejected nor impossible — the call succeeds (no error)
and silently replaces the handle with service 2, never stopping
service 1. -/
theorem claim_C9_counterexample :
    activeRpcState.call_trace_service = some 1 ∧
    (startLoggingRpc activeRpcState "logs" 2 2 none).2 = none ∧
    (startLoggingRpc activeRpcState "logs" 2 2 none).1.call_trace_service =
      some 2 :=
  ⟨rfl, rfl, rfl⟩

/-- C9 (amended): the runner keeps a single handle field per service
kind, so at most one handle is referenced at a time, but a second start
is not rejected — it silently overwrites the reference to the first,
still-running service; after a failed start, and after a stop whose stop
command succeeded, no handle remains active. -/
theorem claim_C9_single_handle_field :
    (∀ (st : RpcState) (dir : String) (pid f : Nat),
      (startLoggingRpc st dir pid f none).2 = none ∧
      (startLoggingRpc st dir pid f none).1.call_trace_service = some pid) ∧
    (∀ (st : RpcState) (dir : String) (pid f : Nat) (status : Int),
      (startLoggingRpc st dir pid f (some status)).1.call_trace_service =
          none ∧
      (startLoggingRpc st dir pid f (some status)).1.call_trace_log_file =
          none ∧
      (startLoggingRpc st dir pid f (some status)).2 =
        some (.startFailed status)) ∧
    (∀ (st : RpcState) (pid : Nat) (w : Int),
      st.call_trace_service = some pid →
      (stopLoggingRpc st 0 w).1.call_trace_service = none ∧
      (stopLoggingRpc st 0 w).1.call_trace_log_file = none) := by
  refine ⟨fun st dir pid f => ⟨rfl, rfl⟩,
    fun st dir pid f status => ⟨rfl, rfl, rfl⟩, ?_⟩
  intro st pid w h
  unfold stopLoggingRpc
  rw [if_neg (by omega), h]
  exact ⟨rfl, rfl⟩

/-- Witness for the amended C9: stopping the active service clears the
handle fields. -/
theorem claim_C9_witness :
    (stopLoggingRpc activeRpcState 0 0).1.call_trace_service = none ∧
    (stopLoggingRpc activeRpcState 0 0).1.call_trace_log_file = none :=
  claim_C9_single_handle_field.2.2 activeRpcState 1 0 rfl

/-- The `Prefetch` enumeration (`runner.py` lines 52-65). -/
inductive Prefetch
  | ENABLED
  | DISABLED
  | RESET_PRIOR_TO_FIRST_LAUNCH
deriving DecidableEq

/-- Outcome of `_WaitTillChromeRunning` for one iteration, abstracting
the poll loop (which is modelled in detail by `waitTillChromeRunning`
below): the target became ready, exited early, or never became ready
within the timeout. -/
inductive WaitRes
  | ready
  | earlyExit
  | timedOut
deriving DecidableEq

/-- Observable actions of one benchmark run, in program order.  Indexed
actions carry the iteration number. -/
inductive Ev
  | setupBase
  | savePreload
  | setPreload
  | mkTempDir
  | startLogging (i : Nat)
  | deletePrefetch
  | startIbm (i : Nat)
  | launch (i : Nat)
  | waitReady (i : Nat)
  | doIter (i : Nat)
  | shutdownTarget (i : Nat)
  | stopIbm (i : Nat)
  | stopLogging (i : Nat)
  | processLogs (i : Nat)
  | processResultsEv
  | restorePreload
  | removeTempDir
  | tearDownBase
deriving DecidableEq

/-- A run configuration together with the environment's behavior: the
prefetch policy, the keep-temp-dirs flag, the planned counter groups
(`none` when `ibmperf_run` is off), and, per iteration index, whether the
launched target becomes ready and whether the workload body raises. -/
structure BenchCfg where
  prefetch : Prefetch
  keepTempDirs : Bool
  ibmGroups : Option (List (Finset String))
  waitRes : Nat → WaitRes
  doFails : Nat → Bool

/-- Count of events satisfying a predicate in a trace. -/
def countIf (p : Ev → Bool) : List Ev → Nat
  | [] => 0
  | e :: rest => (if p e then 1 else 0) + countIf p rest

theorem countIf_append (p : Ev → Bool) (l1 l2 : List Ev) :
    countIf p (l1 ++ l2) = countIf p l1 + countIf p l2 := by
  induction l1 with
  | nil => simp [countIf]
  | cons e rest ih => simp [countIf, ih]; omega

/-- `BenchmarkRunner._PreIteration` (`runner.py` lines 495-500):
start ETW logging, delete the prefetch cache when the policy calls for it
at this iteration, start the hardware counters if configured. -/
def preIterTrace (cfg : BenchCfg) (i : Nat) : List Ev :=
  [.startLogging i] ++
    (if cfg.prefetch = .DISABLED ∨
        (i = 0 ∧ cfg.prefetch = .RESET_PRIOR_TO_FIRST_LAUNCH) then
      [.deletePrefetch]
    else []) ++
    (if cfg.ibmGroups.isSome then [.startIbm i] else [])

/-- `ChromeRunner._RunOneIteration` (`runner.py` lines 309-319): launch,
wait until running, then the workload body inside `try` with the target
shutdown in `finally`.  A wait failure raises before the `try`, so no
shutdown is recorded for it; a workload failure still records the
shutdown.  Returns the events and whether the iteration raised. -/
def runOneTrace (cfg : BenchCfg) (i : Nat) : List Ev × Bool :=
  match cfg.waitRes i with
  | .earlyExit => ([.launch i], true)
  | .timedOut => ([.launch i], true)
  | .ready =>
    ([.launch i, .waitReady i, .doIter i, .shutdownTarget i], cfg.doFails i)

/-- `BenchmarkRunner._PostIteration` (`runner.py` lines 502-512): stop
the counters and logging; on success also process the logs and, under
`DISABLED` prefetch, delete the prefetch cache again. -/
def postIterTrace (cfg : BenchCfg) (i : Nat) (success : Bool) : List Ev :=
  (if cfg.ibmGroups.isSome then [.stopIbm i] else []) ++ [.stopLogging i] ++
    (if success then
      [.processLogs i] ++
        (if cfg.prefetch = .DISABLED then [.deletePrefetch] else [])
    else [])

/-- The `for i in range(iterations)` loop body of `ChromeRunner.Run`
(`runner.py` lines 267-271) together with the `except` clause (lines
276-283): on the first failing iteration, `_PostIteration(i, False)` runs
and the loop stops.  Returns the events and `true` when no iteration
failed. -/
def iterLoop (cfg : BenchCfg) : Nat → Nat → List Ev × Bool
  | 0, _ => ([], true)
  | n + 1, i =>
    let pre := preIterTrace cfg i
    let one := runOneTrace cfg i
    if one.2 then (pre ++ one.1 ++ postIterTrace cfg i false, false)
    else
      let rest := iterLoop cfg n (i + 1)
      (pre ++ one.1 ++ postIterTrace cfg i true ++ rest.1, rest.2)

/-- `BenchmarkRunner._SetUp` (`runner.py` lines 451-456): the base
set-up, then snapshot and set the preload toggle and create the per-run
temporary directory. -/
def setUpTrace : List Ev :=
  [.setupBase, .savePreload, .setPreload, .mkTempDir]

/-- `BenchmarkRunner._TearDown` (`runner.py` lines 458-464): restore the
saved preload setting, delete the temporary directory unless
`keep_temp_dirs`, then the base teardown. -/
def tearDownTrace (cfg : BenchCfg) : List Ev :=
  [.restorePreload] ++
    (if cfg.keepTempDirs then [] else [.removeTempDir]) ++ [.tearDownBase]

/-- `ChromeRunner.Run` (`runner.py` lines 257-286) with the
`BenchmarkRunner` hooks: set-up, the iteration loop inside
`try`/`except`, `_ProcessResults` after a fully successful loop, and the
teardown in `finally` on every modelled exit path. -/
def chromeRunTrace (cfg : BenchCfg) (total : Nat) : List Ev × Bool :=
  let body := iterLoop cfg total 0
  (setUpTrace ++
      (if body.2 then body.1 ++ [.processResultsEv] else body.1) ++
      tearDownTrace cfg,
    body.2)

/-- The number of iterations `BenchmarkRunner.Run` actually requests
(`runner.py` lines 442-449): the caller's count multiplied by the number
of counter groups when hardware counters are gathered. -/
def totalIterations (cfg : BenchCfg) (n : Nat) : Nat :=
  match cfg.ibmGroups with
  | some gs => n * gs.length
  | none => n

/-- `BenchmarkRunner.Run`: multiply the iteration count, then run. -/
def benchRunTrace (cfg : BenchCfg) (n : Nat) : List Ev × Bool :=
  chromeRunTrace cfg (totalIterations cfg n)

/-- Predicate pickers for the trace counts. -/
def isRestorePreload : Ev → Bool
  | .restorePreload => true
  | _ => false

def isRemoveTempDir : Ev → Bool
  | .removeTempDir => true
  | _ => false

def isDoIter : Ev → Bool
  | .doIter _ => true
  | _ => false

def isDeletePrefetch : Ev → Bool
  | .deletePrefetch => true
  | _ => false

def isShutdownOf (k : Nat) : Ev → Bool
  | .shutdownTarget i => decide (i = k)
  | _ => false

def isLaunchOf (k : Nat) : Ev → Bool
  | .launch i => decide (i = k)
  | _ => false

def isStopLoggingOf (k : Nat) : Ev → Bool
  | .stopLogging i => decide (i = k)
  | _ => false

theorem countIf_preIter (p : Ev → Bool) (cfg : BenchCfg) (i : Nat) :
    countIf p (preIterTrace cfg i) =
      (if p (.startLogging i) then 1 else 0) +
      (if cfg.prefetch = .DISABLED ∨
          (i = 0 ∧ cfg.prefetch = .RESET_PRIOR_TO_FIRST_LAUNCH) then
        (if p .deletePrefetch then 1 else 0)
      else 0) +
      (if cfg.ibmGroups.isSome then (if p (.startIbm i) then 1 else 0)
      else 0) := by
  unfold preIterTrace
  rw [countIf_append, countIf_append]
  by_cases h1 : (cfg.prefetch = Prefetch.DISABLED ∨
      (i = 0 ∧ cfg.prefetch = Prefetch.RESET_PRIOR_TO_FIRST_LAUNCH)) <;>
    by_cases h2 : cfg.ibmGroups.isSome = true <;>
      simp [countIf, h1, h2]

theorem countIf_runOne_ready (p : Ev → Bool) (cfg : BenchCfg) (i : Nat)
    (h : cfg.waitRes i = .ready) :
    countIf p (runOneTrace cfg i).1 =
      (if p (.launch i) then 1 else 0) +
      (if p (.waitReady i) then 1 else 0) +
      (if p (.doIter i) then 1 else 0) +
      (if p (.shutdownTarget i) then 1 else 0) := by
  simp [runOneTrace, h, countIf]
  omega

theorem countIf_runOne_wait_fail (p : Ev → Bool) (cfg : BenchCfg) (i : Nat)
    (h : cfg.waitRes i = .earlyExit ∨ cfg.waitRes i = .timedOut) :
    countIf p (runOneTrace cfg i).1 = (if p (.launch i) then 1 else 0) := by
  rcases h with h | h <;> simp [runOneTrace, h, countIf]

theorem countIf_postIter (p : Ev → Bool) (cfg : BenchCfg) (i : Nat)
    (success : Bool) :
    countIf p (postIterTrace cfg i success) =
      (if cfg.ibmGroups.isSome then (if p (.stopIbm i) then 1 else 0)
      else 0) +
      (if p (.stopLogging i) then 1 else 0) +
      (if success then
        (if p (.processLogs i) then 1 else 0) +
          (if cfg.prefetch = .DISABLED then
            (if p .deletePrefetch then 1 else 0)
          else 0)
      else 0) := by
  unfold postIterTrace
  cases success <;>
    rw [countIf_append, countIf_append] <;>
    by_cases h2 : cfg.ibmGroups.isSome = true <;>
      by_cases h3 : cfg.prefetch = Prefetch.DISABLED <;>
        simp [countIf, countIf_append, h2, h3]

theorem countIf_setUp (p : Ev → Bool) :
    countIf p setUpTrace =
      (if p .setupBase then 1 else 0) + (if p .savePreload then 1 else 0) +
      (if p .setPreload then 1 else 0) + (if p .mkTempDir then 1 else 0) := by
  simp [setUpTrace, countIf]
  omega

theorem countIf_tearDown (p : Ev → Bool) (cfg : BenchCfg) :
    countIf p (tearDownTrace cfg) =
      (if p .restorePreload then 1 else 0) +
      (if cfg.keepTempDirs then 0 else (if p .removeTempDir then 1 else 0)) +
      (if p .tearDownBase then 1 else 0) := by
  unfold tearDownTrace
  rw [countIf_append, countIf_append]
  cases hk : cfg.keepTempDirs <;> simp [countIf, hk]

theorem iterLoop_fst_fail (cfg : BenchCfg) (n i : Nat)
    (h : (runOneTrace cfg i).2 = true) :
    (iterLoop cfg (n + 1) i).1 =
      preIterTrace cfg i ++ (runOneTrace cfg i).1 ++
        postIterTrace cfg i false := by
  simp [iterLoop, h]

theorem iterLoop_snd_fail (cfg : BenchCfg) (n i : Nat)
    (h : (runOneTrace cfg i).2 = true) :
    (iterLoop cfg (n + 1) i).2 = false := by
  simp [iterLoop, h]

theorem iterLoop_fst_ok (cfg : BenchCfg) (n i : Nat)
    (h : (runOneTrace cfg i).2 = false) :
    (iterLoop cfg (n + 1) i).1 =
      preIterTrace cfg i ++ (runOneTrace cfg i).1 ++
        postIterTrace cfg i true ++ (iterLoop cfg n (i + 1)).1 := by
  simp [iterLoop, h]

theorem iterLoop_snd_ok (cfg : BenchCfg) (n i : Nat)
    (h : (runOneTrace cfg i).2 = false) :
    (iterLoop cfg (n + 1) i).2 = (iterLoop cfg n (i + 1)).2 := by
  simp [iterLoop, h]

theorem runOne_snd_of_ready (cfg : BenchCfg) (i : Nat)
    (hw : cfg.waitRes i = .ready) :
    (runOneTrace cfg i).2 = cfg.doFails i := by
  simp [runOneTrace, hw]

theorem runOne_snd_of_ok (cfg : BenchCfg) (i : Nat)
    (hw : cfg.waitRes i = .ready) (hd : cfg.doFails i = false) :
    (runOneTrace cfg i).2 = false := by
  simp [runOneTrace, hw, hd]

theorem iterLoop_flag_ok (cfg : BenchCfg)
    (hok : ∀ j, (runOneTrace cfg j).2 = false) :
    ∀ n i, (iterLoop cfg n i).2 = true := by
  intro n
  induction n with
  | zero => intro i; simp [iterLoop]
  | succ n ih =>
    intro i
    rw [iterLoop_snd_ok cfg n i (hok i)]
    exact ih (i + 1)

theorem countIf_chromeRun (p : Ev → Bool) (cfg : BenchCfg) (total : Nat) :
    countIf p (chromeRunTrace cfg total).1 =
      countIf p setUpTrace + countIf p (iterLoop cfg total 0).1 +
      (if (iterLoop cfg total 0).2 then
        (if p .processResultsEv then 1 else 0)
      else 0) +
      countIf p (tearDownTrace cfg) := by
  unfold chromeRunTrace
  cases hb : (iterLoop cfg total 0).2 <;>
    simp [countIf_append, countIf, hb] <;> omega

/-- No event produced inside the iteration loop matches `p` when `p`
rejects every per-iteration action; in particular the teardown-only
actions never occur inside the loop. -/
theorem iterLoop_countIf_zero (cfg : BenchCfg) (p : Ev → Bool)
    (h1 : ∀ i, p (.startLogging i) = false)
    (h2 : p .deletePrefetch = false)
    (h3 : ∀ i, p (.startIbm i) = false)
    (h4 : ∀ i, p (.launch i) = false)
    (h5 : ∀ i, p (.waitReady i) = false)
    (h6 : ∀ i, p (.doIter i) = false)
    (h7 : ∀ i, p (.shutdownTarget i) = false)
    (h8 : ∀ i, p (.stopIbm i) = false)
    (h9 : ∀ i, p (.stopLogging i) = false)
    (h10 : ∀ i, p (.processLogs i) = false) :
    ∀ n i, countIf p (iterLoop cfg n i).1 = 0 := by
  have hone : ∀ i, countIf p (runOneTrace cfg i).1 = 0 := by
    intro i
    cases hw : cfg.waitRes i
    · rw [countIf_runOne_ready p cfg i hw]
      simp [h4 i, h5 i, h6 i, h7 i]
    · rw [countIf_runOne_wait_fail p cfg i (Or.inl hw)]
      simp [h4 i]
    · rw [countIf_runOne_wait_fail p cfg i (Or.inr hw)]
      simp [h4 i]
  have hpre : ∀ i, countIf p (preIterTrace cfg i) = 0 := by
    intro i
    rw [countIf_preIter]
    simp [h1 i, h2, h3 i]
  have hpost : ∀ i b, countIf p (postIterTrace cfg i b) = 0 := by
    intro i b
    rw [countIf_postIter]
    simp [h2, h8 i, h9 i, h10 i]
  intro n
  induction n with
  | zero => intro i; simp [iterLoop, countIf]
  | succ n ih =>
    intro i
    by_cases hf : (runOneTrace cfg i).2 = true
    · rw [iterLoop_fst_fail cfg n i hf, countIf_append, countIf_append,
        hpre, hone, hpost]
    · rw [iterLoop_fst_ok cfg n i (by simpa using hf), countIf_append,
        countIf_append, countIf_append, hpre, hone, hpost, ih]

theorem waitRes_of_ok (cfg : BenchCfg) (i : Nat)
    (h : (runOneTrace cfg i).2 = false) : cfg.waitRes i = .ready := by
  cases hw : cfg.waitRes i
  · rfl
  · simp [runOneTrace, hw] at h
  · simp [runOneTrace, hw] at h

/-- With iterations before `k` succeeding and the workload of iteration
`k` raising after the target became ready, the loop records exactly one
target shutdown for iteration `k` and reports failure. -/
theorem iterLoop_shutdown_first_fail (cfg : BenchCfg) (k : Nat)
    (hbefore : ∀ j, j < k → (runOneTrace cfg j).2 = false)
    (hw : cfg.waitRes k = .ready) (hd : cfg.doFails k = true) :
    ∀ n i, i ≤ k → k < i + n →
      countIf (isShutdownOf k) (iterLoop cfg n i).1 = 1 ∧
      (iterLoop cfg n i).2 = false := by
  have hfailk : (runOneTrace cfg k).2 = true := by
    simp [runOneTrace, hw, hd]
  intro n
  induction n with
  | zero =>
    intro i hik hkn
    omega
  | succ n ih =>
    intro i hik hkn
    by_cases hi : i = k
    · subst hi
      refine ⟨?_, iterLoop_snd_fail cfg n i hfailk⟩
      rw [iterLoop_fst_fail cfg n i hfailk, countIf_append, countIf_append,
        countIf_preIter, countIf_runOne_ready _ cfg i hw, countIf_postIter]
      simp [isShutdownOf]
    · have hlt : i < k := lt_of_le_of_ne hik hi
      have hoki : (runOneTrace cfg i).2 = false := hbefore i hlt
      obtain ⟨ihc, ihf⟩ := ih (i + 1) (by omega) (by omega)
      have hne : ¬(i = k) := hi
      refine ⟨?_, by rw [iterLoop_snd_ok cfg n i hoki]; exact ihf⟩
      rw [iterLoop_fst_ok cfg n i hoki, countIf_append, countIf_append,
        countIf_append, countIf_preIter, countIf_postIter, ihc,
        countIf_runOne_ready _ cfg i (waitRes_of_ok cfg i hoki)]
      simp [isShutdownOf, hne]

/-- C2: when the workload body of iteration `k` raises after the target
became ready (iterations before `k` having succeeded), the target
shutdown for iteration `k` still executes exactly once and the run
reports failure; and on every modelled exit path of `Run` — any
configuration, any wait/workload behavior — the preload-restore action
runs exactly once and the temporary-directory removal runs exactly once
unless `keep_temp_dirs` is set. -/
theorem claim_C2_teardown_guarantee (cfg : BenchCfg) (n k : Nat)
    (hk : k < totalIterations cfg n)
    (hbefore : ∀ j, j < k → cfg.waitRes j = .ready ∧ cfg.doFails j = false)
    (hw : cfg.waitRes k = .ready) (hd : cfg.doFails k = true) :
    countIf (isShutdownOf k) (benchRunTrace cfg n).1 = 1 ∧
    (benchRunTrace cfg n).2 = false ∧
    (∀ (cfg' : BenchCfg) (m : Nat),
      countIf isRestorePreload (benchRunTrace cfg' m).1 = 1 ∧
      countIf isRemoveTempDir (benchRunTrace cfg' m).1 =
        (if cfg'.keepTempDirs then 0 else 1)) := by
  have hbefore' : ∀ j, j < k → (runOneTrace cfg j).2 = false := fun j hj =>
    runOne_snd_of_ok cfg j (hbefore j hj).1 (hbefore j hj).2
  obtain ⟨hcount, hflag⟩ :=
    iterLoop_shutdown_first_fail cfg k hbefore' hw hd
      (totalIterations cfg n) 0 (by omega) (by omega)
  refine ⟨?_, ?_, ?_⟩
  · show countIf (isShutdownOf k)
      (chromeRunTrace cfg (totalIterations cfg n)).1 = 1
    rw [countIf_chromeRun, countIf_setUp, countIf_tearDown, hcount, hflag]
    simp [isShutdownOf]
  · show (chromeRunTrace cfg (totalIterations cfg n)).2 = false
    unfold chromeRunTrace
    exact hflag
  · intro cfg' m
    constructor
    · show countIf isRestorePreload
        (chromeRunTrace cfg' (totalIterations cfg' m)).1 = 1
      rw [countIf_chromeRun, countIf_setUp, countIf_tearDown,
        iterLoop_countIf_zero cfg' isRestorePreload (fun a => rfl) rfl
          (fun b => rfl) (fun c => rfl) (fun d => rfl) (fun e => rfl)
          (fun f => rfl) (fun g => rfl) (fun j => rfl) (fun m => rfl)]
      cases hb : (iterLoop cfg' (totalIterations cfg' m) 0).2 <;>
        cases hkp : cfg'.keepTempDirs <;> simp [isRestorePreload]
    · show countIf isRemoveTempDir
        (chromeRunTrace cfg' (totalIterations cfg' m)).1 =
          (if cfg'.keepTempDirs then 0 else 1)
      rw [countIf_chromeRun, countIf_setUp, countIf_tearDown,
        iterLoop_countIf_zero cfg' isRemoveTempDir (fun a => rfl) rfl
          (fun b => rfl) (fun c => rfl) (fun d => rfl) (fun e => rfl)
          (fun f => rfl) (fun g => rfl) (fun j => rfl) (fun m => rfl)]
      cases hb : (iterLoop cfg' (totalIterations cfg' m) 0).2 <;>
        cases hkp : cfg'.keepTempDirs <;> simp [isRemoveTempDir]

/-- A run of three iterations whose second workload raises. -/
def cfgW2 : BenchCfg :=
  { prefetch := .ENABLED, keepTempDirs := false, ibmGroups := none,
    waitRes := fun _ => .ready, doFails := fun j => decide (j = 1) }

/-- Witness for C2 on `cfgW2`. -/
theorem claim_C2_witness :
    countIf (isShutdownOf 1) (benchRunTrace cfgW2 3).1 = 1 ∧
    (benchRunTrace cfgW2 3).2 = false ∧
    countIf isRestorePreload (benchRunTrace cfgW2 3).1 = 1 ∧
    countIf isRemoveTempDir (benchRunTrace cfgW2 3).1 =
      (if cfgW2.keepTempDirs then 0 else 1) :=
  have h := claim_C2_teardown_guarantee cfgW2 3 1 (by decide)
    (by
      intro j hj
      have hj0 : j = 0 := by omega
      subst hj0
      exact ⟨rfl, rfl⟩)
    rfl rfl
  ⟨h.1, h.2.1, (h.2.2 cfgW2 3).1, (h.2.2 cfgW2 3).2⟩

/-- The number of planned counter groups of a configuration (`0` when
hardware counters are off). -/
def numGroups (cfg : BenchCfg) : Nat :=
  match cfg.ibmGroups with
  | some gs => gs.length
  | none => 0

theorem iterLoop_count_doIter (cfg : BenchCfg)
    (hok : ∀ j, (runOneTrace cfg j).2 = false) :
    ∀ n i, countIf isDoIter (iterLoop cfg n i).1 = n := by
  intro n
  induction n with
  | zero => intro i; simp [iterLoop, countIf]
  | succ n ih =>
    intro i
    rw [iterLoop_fst_ok cfg n i (hok i), countIf_append, countIf_append,
      countIf_append, countIf_preIter, countIf_postIter, ih,
      countIf_runOne_ready _ cfg i (waitRes_of_ok cfg i (hok i))]
    simp [isDoIter]
    omega

/-- C3: a failure-free run of requested count `n` executes exactly
`n * max(G, 1)` iterations, where `G` is the number of planned counter
groups: the count is multiplied by the (always positive) group count when
hardware counters are gathered, and is exactly `n` otherwise. -/
theorem claim_C3_iteration_count (cfg : BenchCfg) (n : Nat)
    (hready : ∀ j, cfg.waitRes j = .ready)
    (hfine : ∀ j, cfg.doFails j = false)
    (hplan : ∀ gs, cfg.ibmGroups = some gs →
      ∃ (hpc : HardwarePerformanceCounter) (requested : List String)
        (it : Finset String → List String),
        setupIbmPerfGroups hpc requested it = some gs) :
    countIf isDoIter (benchRunTrace cfg n).1 = n * max (numGroups cfg) 1 ∧
    (benchRunTrace cfg n).2 = true := by
  have hok : ∀ j, (runOneTrace cfg j).2 = false := fun j =>
    runOne_snd_of_ok cfg j (hready j) (hfine j)
  have hloop := iterLoop_count_doIter cfg hok (totalIterations cfg n) 0
  have htot : totalIterations cfg n = n * max (numGroups cfg) 1 := by
    unfold totalIterations numGroups
    cases hg : cfg.ibmGroups with
    | none => simp
    | some gs =>
      obtain ⟨hpc, requested, it, hsetup⟩ := hplan gs hg
      have hne := setupIbmPerfGroups_ne_nil hpc requested it gs hsetup
      have hlen : 1 ≤ gs.length := by
        cases gs with
        | nil => exact absurd rfl hne
        | cons a l => simp
      rw [Nat.max_eq_left hlen]
  constructor
  · show countIf isDoIter
      (chromeRunTrace cfg (totalIterations cfg n)).1 = _
    rw [countIf_chromeRun, countIf_setUp, countIf_tearDown, hloop,
      iterLoop_flag_ok cfg hok, htot]
    simp [isDoIter]
  · show (chromeRunTrace cfg (totalIterations cfg n)).2 = true
    unfold chromeRunTrace
    exact iterLoop_flag_ok cfg hok _ _

/-- A failure-free run gathering hardware counters with the two groups
planned for `hpcScenB`. -/
def cfgW3 : BenchCfg :=
  { prefetch := .ENABLED, keepTempDirs := false,
    ibmGroups := some [{"A", "B"}, {"C"}],
    waitRes := fun _ => .ready, doFails := fun _ => false }

/-- Witness for C3 on `cfgW3`: 3 requested iterations, 2 groups, 6
executed iterations. -/
theorem claim_C3_witness :
    countIf isDoIter (benchRunTrace cfgW3 3).1 =
      3 * max (numGroups cfgW3) 1 ∧
    (benchRunTrace cfgW3 3).2 = true :=
  claim_C3_iteration_count cfgW3 3 (fun _ => rfl) (fun _ => rfl)
    (fun gs hgs => by
      have h2 : some ([{"A", "B"}, {"C"}] : List (Finset String)) = some gs :=
        hgs
      injection h2 with h3
      subst h3
      exact ⟨hpcScenB, ["A", "B", "C"], sortedIter,
        by with_unfolding_all decide⟩)

theorem iterLoop_delete_disabled (cfg : BenchCfg)
    (hp : cfg.prefetch = .DISABLED)
    (hok : ∀ j, (runOneTrace cfg j).2 = false) :
    ∀ n i, countIf isDeletePrefetch (iterLoop cfg n i).1 = 2 * n := by
  intro n
  induction n with
  | zero => intro i; simp [iterLoop, countIf]
  | succ n ih =>
    intro i
    rw [iterLoop_fst_ok cfg n i (hok i), countIf_append, countIf_append,
      countIf_append, countIf_preIter, countIf_postIter, ih,
      countIf_runOne_ready _ cfg i (waitRes_of_ok cfg i (hok i))]
    simp [isDeletePrefetch, hp]
    omega

theorem iterLoop_delete_enabled (cfg : BenchCfg)
    (hp : cfg.prefetch = .ENABLED)
    (hok : ∀ j, (runOneTrace cfg j).2 = false) :
    ∀ n i, countIf isDeletePrefetch (iterLoop cfg n i).1 = 0 := by
  intro n
  induction n with
  | zero => intro i; simp [iterLoop, countIf]
  | succ n ih =>
    intro i
    rw [iterLoop_fst_ok cfg n i (hok i), countIf_append, countIf_append,
      countIf_append, countIf_preIter, countIf_postIter, ih,
      countIf_runOne_ready _ cfg i (waitRes_of_ok cfg i (hok i))]
    simp [isDeletePrefetch, hp]

theorem iterLoop_delete_reset (cfg : BenchCfg)
    (hp : cfg.prefetch = .RESET_PRIOR_TO_FIRST_LAUNCH)
    (hok : ∀ j, (runOneTrace cfg j).2 = false) :
    ∀ n i, countIf isDeletePrefetch (iterLoop cfg n i).1 =
      (if i = 0 ∧ 0 < n then 1 else 0) := by
  intro n
  induction n with
  | zero => intro i; simp [iterLoop, countIf]
  | succ n ih =>
    intro i
    rw [iterLoop_fst_ok cfg n i (hok i), countIf_append, countIf_append,
      countIf_append, countIf_preIter, countIf_postIter, ih,
      countIf_runOne_ready _ cfg i (waitRes_of_ok cfg i (hok i))]
    by_cases hi : i = 0
    · simp [isDeletePrefetch, hp, hi]
    · simp [isDeletePrefetch, hp, hi]

/-- C4: over a failure-free run of `N` iterations, the prefetch-cache
deletion runs `2 * N` times under `DISABLED` (before and after every
iteration), never under `ENABLED`, and exactly once — before iteration
0, right after that iteration's logging start — under
`RESET_PRIOR_TO_FIRST_LAUNCH`. -/
theorem claim_C4_prefetch_policy (cfg : BenchCfg) (N : Nat)
    (hready : ∀ j, cfg.waitRes j = .ready)
    (hfine : ∀ j, cfg.doFails j = false) :
    (cfg.prefetch = .DISABLED →
      countIf isDeletePrefetch (chromeRunTrace cfg N).1 = 2 * N) ∧
    (cfg.prefetch = .ENABLED →
      countIf isDeletePrefetch (chromeRunTrace cfg N).1 = 0) ∧
    (cfg.prefetch = .RESET_PRIOR_TO_FIRST_LAUNCH → 0 < N →
      countIf isDeletePrefetch (chromeRunTrace cfg N).1 = 1 ∧
      ∃ rest, (chromeRunTrace cfg N).1 =
        setUpTrace ++ [.startLogging 0, .deletePrefetch] ++ rest ∧
        countIf isDeletePrefetch rest = 0) := by
  have hok : ∀ j, (runOneTrace cfg j).2 = false := fun j =>
    runOne_snd_of_ok cfg j (hready j) (hfine j)
  have hbase : countIf isDeletePrefetch (chromeRunTrace cfg N).1 =
      countIf isDeletePrefetch (iterLoop cfg N 0).1 := by
    rw [countIf_chromeRun, countIf_setUp, countIf_tearDown,
      iterLoop_flag_ok cfg hok]
    simp [isDeletePrefetch]
  refine ⟨?_, ?_, ?_⟩
  · intro hp
    rw [hbase, iterLoop_delete_disabled cfg hp hok]
  · intro hp
    rw [hbase, iterLoop_delete_enabled cfg hp hok]
  · intro hp hN
    constructor
    · rw [hbase, iterLoop_delete_reset cfg hp hok]
      simp [hN]
    · cases N with
      | zero => omega
      | succ m =>
        refine ⟨(if cfg.ibmGroups.isSome then [.startIbm 0] else []) ++
          (runOneTrace cfg 0).1 ++ postIterTrace cfg 0 true ++
          (iterLoop cfg m 1).1 ++ [.processResultsEv] ++
          tearDownTrace cfg, ?_, ?_⟩
        · have hflag := iterLoop_flag_ok cfg hok (m + 1) 0
          have hpre : preIterTrace cfg 0 =
              [.startLogging 0] ++ [.deletePrefetch] ++
                (if cfg.ibmGroups.isSome then [.startIbm 0] else []) := by
            simp [preIterTrace, hp]
          simp only [chromeRunTrace, hflag, if_true]
          rw [iterLoop_fst_ok cfg m 0 (hok 0), hpre]
          simp [List.append_assoc]
        · rw [countIf_append, countIf_append, countIf_append,
            countIf_append, countIf_append, countIf_postIter,
            countIf_tearDown, iterLoop_delete_reset cfg hp hok,
            countIf_runOne_ready _ cfg 0 (hready 0)]
          cases hso : cfg.ibmGroups.isSome <;>
            simp [isDeletePrefetch, hp, countIf, hso]

/-- A failure-free three-iteration run with prefetch disabled. -/
def cfgW4d : BenchCfg :=
  { prefetch := .DISABLED, keepTempDirs := false, ibmGroups := none,
    waitRes := fun _ => .ready, doFails := fun _ => false }

/-- A failure-free three-iteration run with the reset-before-first-launch
policy. -/
def cfgW4r : BenchCfg :=
  { prefetch := .RESET_PRIOR_TO_FIRST_LAUNCH, keepTempDirs := false,
    ibmGroups := none, waitRes := fun _ => .ready,
    doFails := fun _ => false }

/-- Witness for C4: 6 deletions over 3 iterations under `DISABLED`,
exactly one under `RESET_PRIOR_TO_FIRST_LAUNCH`. -/
theorem claim_C4_witness :
    countIf isDeletePrefetch (chromeRunTrace cfgW4d 3).1 = 2 * 3 ∧
    countIf isDeletePrefetch (chromeRunTrace cfgW4r 3).1 = 1 :=
  ⟨(claim_C4_prefetch_policy cfgW4d 3 (fun _ => rfl) (fun _ => rfl)).1 rfl,
    ((claim_C4_prefetch_policy cfgW4r 3 (fun _ => rfl)
        (fun _ => rfl)).2.2 rfl (by decide)).1⟩

/-- Failure modes of `_WaitTillChromeRunning`: the target exited before
becoming ready, or the 5-minute ceiling elapsed. -/
inductive WaitErr
  | earlyTermination
  | timedOut
deriving DecidableEq

/-- The poll loop of `ChromeRunner._WaitTillChromeRunning` (`runner.py`
lines 367-392): `for i in xrange(5 * 60): if running: return; if exited:
raise early-termination; sleep(1)`, then raise timeout.  `t` counts the
one-second sleeps taken so far, so the poll at time `t` happens `t`
seconds after launch; `fuel` is the number of loop iterations left. -/
def waitLoop (running exited : Nat → Bool) : Nat → Nat → Except WaitErr Nat
  | 0, _ => .error .timedOut
  | fuel + 1, t =>
    if running t then .ok t
    else if exited t then .error .earlyTermination
    else waitLoop running exited fuel (t + 1)

/-- `_WaitTillChromeRunning`: 5 minutes of one-second polls. -/
def waitTillChromeRunning (running exited : Nat → Bool) :
    Except WaitErr Nat :=
  waitLoop running exited (5 * 60) 0

theorem waitLoop_timeout (running exited : Nat → Bool) :
    ∀ fuel t,
      (∀ u, t ≤ u → u < t + fuel → running u = false ∧ exited u = false) →
      waitLoop running exited fuel t = .error .timedOut := by
  intro fuel
  induction fuel with
  | zero => intro t _; rfl
  | succ fuel ih =>
    intro t h
    have h0 := h t le_rfl (by omega)
    rw [waitLoop, h0.1, h0.2]
    simp
    exact ih (t + 1) (fun u hu1 hu2 => h u (by omega) (by omega))

theorem waitLoop_early (running exited : Nat → Bool) (k : Nat) :
    ∀ fuel t, t ≤ k → k < t + fuel →
      (∀ u, t ≤ u → u ≤ k → running u = false) →
      (∀ u, t ≤ u → u < k → exited u = false) →
      exited k = true →
      waitLoop running exited fuel t = .error .earlyTermination := by
  intro fuel
  induction fuel with
  | zero => intro t h1 h2 _ _ _; omega
  | succ fuel ih =>
    intro t h1 h2 hr he hk
    by_cases ht : t = k
    · subst ht
      rw [waitLoop, hr t le_rfl le_rfl, hk]
      simp
    · have hlt : t < k := lt_of_le_of_ne h1 ht
      rw [waitLoop, hr t le_rfl (by omega), he t le_rfl (by omega)]
      simp
      exact ih (t + 1) (by omega) (by omega)
        (fun u hu1 hu2 => hr u (by omega) hu2)
        (fun u hu1 hu2 => he u (by omega) hu2) hk

theorem waitLoop_ready (running exited : Nat → Bool) (t0 : Nat) :
    ∀ fuel t, t ≤ t0 → t0 < t + fuel →
      running t0 = true →
      (∀ u, t ≤ u → u < t0 → running u = false ∧ exited u = false) →
      waitLoop running exited fuel t = .ok t0 := by
  intro fuel
  induction fuel with
  | zero => intro t h1 h2 _ _; omega
  | succ fuel ih =>
    intro t h1 h2 hr0 hbefore
    by_cases ht : t = t0
    · subst ht
      rw [waitLoop, hr0]
      simp
    · have hlt : t < t0 := lt_of_le_of_ne h1 ht
      have hb := hbefore t le_rfl hlt
      rw [waitLoop, hb.1, hb.2]
      simp
      exact ih (t + 1) (by omega) (by omega) hr0
        (fun u hu1 hu2 => hbefore u (by omega) hu2)

/-- With iterations before `k` succeeding and iteration `k` failing (in
any way), the loop reports failure, runs the failed iteration's cleanup
(`_PostIteration(k, False)`, visible as its logging stop) exactly once,
and never launches any later iteration. -/
theorem iterLoop_abort_first_fail (cfg : BenchCfg) (k : Nat)
    (hbefore : ∀ j, j < k → (runOneTrace cfg j).2 = false)
    (hfailk : (runOneTrace cfg k).2 = true) :
    ∀ n i, i ≤ k → k < i + n →
      (iterLoop cfg n i).2 = false ∧
      countIf (isStopLoggingOf k) (iterLoop cfg n i).1 = 1 ∧
      (∀ j, k < j → countIf (isLaunchOf j) (iterLoop cfg n i).1 = 0) := by
  have honek : ∀ q : Ev → Bool,
      q (.launch k) = false → q (.waitReady k) = false →
      q (.doIter k) = false → q (.shutdownTarget k) = false →
      countIf q (runOneTrace cfg k).1 = 0 := by
    intro q q1 q2 q3 q4
    cases hw : cfg.waitRes k
    · rw [countIf_runOne_ready q cfg k hw]
      simp [q1, q2, q3, q4]
    · rw [countIf_runOne_wait_fail q cfg k (Or.inl hw)]
      simp [q1]
    · rw [countIf_runOne_wait_fail q cfg k (Or.inr hw)]
      simp [q1]
  have honei : ∀ (i : Nat) (q : Ev → Bool),
      q (.launch i) = false → q (.waitReady i) = false →
      q (.doIter i) = false → q (.shutdownTarget i) = false →
      countIf q (runOneTrace cfg i).1 = 0 := by
    intro i q q1 q2 q3 q4
    cases hw : cfg.waitRes i
    · rw [countIf_runOne_ready q cfg i hw]
      simp [q1, q2, q3, q4]
    · rw [countIf_runOne_wait_fail q cfg i (Or.inl hw)]
      simp [q1]
    · rw [countIf_runOne_wait_fail q cfg i (Or.inr hw)]
      simp [q1]
  intro n
  induction n with
  | zero =>
    intro i h1 h2
    omega
  | succ n ih =>
    intro i h1 h2
    by_cases hi : i = k
    · subst hi
      refine ⟨iterLoop_snd_fail cfg n i hfailk, ?_, ?_⟩
      · rw [iterLoop_fst_fail cfg n i hfailk, countIf_append,
          countIf_append, countIf_preIter, countIf_postIter,
          honei i _ (by simp [isStopLoggingOf]) (by simp [isStopLoggingOf])
            (by simp [isStopLoggingOf]) (by simp [isStopLoggingOf])]
        simp [isStopLoggingOf]
      · intro j hj
        have hne : ¬(i = j) := by omega
        rw [iterLoop_fst_fail cfg n i hfailk, countIf_append,
          countIf_append, countIf_preIter, countIf_postIter,
          honei i _ (by simp [isLaunchOf, hne]) (by simp [isLaunchOf])
            (by simp [isLaunchOf]) (by simp [isLaunchOf])]
        simp [isLaunchOf]
    · have hlt : i < k := lt_of_le_of_ne h1 hi
      have hoki : (runOneTrace cfg i).2 = false := hbefore i hlt
      obtain ⟨ihf, ihc, ihl⟩ := ih (i + 1) (by omega) (by omega)
      have hne : ¬(i = k) := hi
      refine ⟨by rw [iterLoop_snd_ok cfg n i hoki]; exact ihf, ?_, ?_⟩
      · rw [iterLoop_fst_ok cfg n i hoki, countIf_append, countIf_append,
          countIf_append, countIf_preIter, countIf_postIter, ihc,
          honei i _ (by simp [isStopLoggingOf]) (by simp [isStopLoggingOf])
            (by simp [isStopLoggingOf]) (by simp [isStopLoggingOf])]
        simp [isStopLoggingOf, hne]
      · intro j hj
        have hnej : ¬(i = j) := by omega
        rw [iterLoop_fst_ok cfg n i hoki, countIf_append, countIf_append,
          countIf_append, countIf_preIter, countIf_postIter, ihl j hj,
          honei i _ (by simp [isLaunchOf, hnej]) (by simp [isLaunchOf])
            (by simp [isLaunchOf]) (by simp [isLaunchOf])]
        simp [isLaunchOf]

/-- C6: the wait-for-ready poll runs at one-second granularity for at
most `5 * 60` polls — never ready within the window means a timeout
error, exit before ready means an early-termination error, and readiness
after `t0` seconds returns at poll `t0`; and when a launched iteration
`k` fails to become ready — whether the target exited early or the wait
timed out — the run reports failure, performs iteration `k`'s cleanup
exactly once, never launches any later iteration, and still restores the
environment exactly once. -/
theorem claim_C6_wait_poll_and_abort :
    (∀ running exited : Nat → Bool,
      (∀ t, t < 5 * 60 → running t = false ∧ exited t = false) →
      waitTillChromeRunning running exited = .error .timedOut) ∧
    (∀ (running exited : Nat → Bool) (k : Nat), k < 5 * 60 →
      (∀ u, u ≤ k → running u = false) →
      (∀ u, u < k → exited u = false) →
      exited k = true →
      waitTillChromeRunning running exited = .error .earlyTermination) ∧
    (∀ (running exited : Nat → Bool) (t0 : Nat), t0 < 5 * 60 →
      running t0 = true →
      (∀ u, u < t0 → running u = false ∧ exited u = false) →
      waitTillChromeRunning running exited = .ok t0) ∧
    (∀ (cfg : BenchCfg) (n k : Nat), k < totalIterations cfg n →
      (∀ j, j < k → cfg.waitRes j = .ready ∧ cfg.doFails j = false) →
      cfg.waitRes k = .earlyExit ∨ cfg.waitRes k = .timedOut →
      (benchRunTrace cfg n).2 = false ∧
      countIf (isStopLoggingOf k) (benchRunTrace cfg n).1 = 1 ∧
      (∀ j, k < j → countIf (isLaunchOf j) (benchRunTrace cfg n).1 = 0) ∧
      countIf isRestorePreload (benchRunTrace cfg n).1 = 1) := by
  refine ⟨?_, ?_, ?_, ?_⟩
  · intro running exited h
    exact waitLoop_timeout running exited (5 * 60) 0
      (fun u hu1 hu2 => h u (by omega))
  · intro running exited k hk hr he hke
    exact waitLoop_early running exited k (5 * 60) 0 (by omega) (by omega)
      (fun u _ hu2 => hr u hu2) (fun u _ hu2 => he u hu2) hke
  · intro running exited t0 ht0 hr0 hbefore
    exact waitLoop_ready running exited t0 (5 * 60) 0 (by omega) (by omega)
      hr0 (fun u _ hu2 => hbefore u hu2)
  · intro cfg n k hk hbefore hwk
    have hbefore' : ∀ j, j < k → (runOneTrace cfg j).2 = false := fun j hj =>
      runOne_snd_of_ok cfg j (hbefore j hj).1 (hbefore j hj).2
    have hfailk : (runOneTrace cfg k).2 = true := by
      rcases hwk with hwk | hwk <;> simp [runOneTrace, hwk]
    obtain ⟨hflag, hstop, hlaunch⟩ :=
      iterLoop_abort_first_fail cfg k hbefore' hfailk
        (totalIterations cfg n) 0 (by omega) (by omega)
    refine ⟨?_, ?_, ?_, ?_⟩
    · show (chromeRunTrace cfg (totalIterations cfg n)).2 = false
      unfold chromeRunTrace
      exact hflag
    · show countIf (isStopLoggingOf k)
        (chromeRunTrace cfg (totalIterations cfg n)).1 = 1
      rw [countIf_chromeRun, countIf_setUp, countIf_tearDown, hstop, hflag]
      simp [isStopLoggingOf]
    · intro j hj
      show countIf (isLaunchOf j)
        (chromeRunTrace cfg (totalIterations cfg n)).1 = 0
      rw [countIf_chromeRun, countIf_setUp, countIf_tearDown,
        hlaunch j hj, hflag]
      simp [isLaunchOf]
    · show countIf isRestorePreload
        (chromeRunTrace cfg (totalIterations cfg n)).1 = 1
      rw [countIf_chromeRun, countIf_setUp, countIf_tearDown,
        iterLoop_countIf_zero cfg isRestorePreload (fun a => rfl) rfl
          (fun b => rfl) (fun c => rfl) (fun d => rfl) (fun e => rfl)
          (fun f => rfl) (fun g => rfl) (fun j => rfl) (fun m => rfl),
        hflag]
      simp [isRestorePreload]

/-- A three-iteration run whose second launch exits before readiness. -/
def cfgW6 : BenchCfg :=
  { prefetch := .ENABLED, keepTempDirs := false, ibmGroups := none,
    waitRes := fun j => if j = 1 then .earlyExit else .ready,
    doFails := fun _ => false }

/-- A three-iteration run whose second launch never becomes ready within
the 5-minute window. -/
def cfgW6t : BenchCfg :=
  { prefetch := .ENABLED, keepTempDirs := false, ibmGroups := none,
    waitRes := fun j => if j = 1 then .timedOut else .ready,
    doFails := fun _ => false }

/-- Witness for C6: a target that exits immediately yields early
termination; one that never appears yields the timeout; and the run with
an early exit — or a timeout — at iteration 1 of 3 fails without
launching iteration 2, with the environment restore still executed. -/
theorem claim_C6_witness :
    waitTillChromeRunning (fun _ => false) (fun _ => true) =
      .error .earlyTermination ∧
    waitTillChromeRunning (fun _ => false) (fun _ => false) =
      .error .timedOut ∧
    ((benchRunTrace cfgW6 3).2 = false ∧
      countIf (isLaunchOf 2) (benchRunTrace cfgW6 3).1 = 0 ∧
      countIf isRestorePreload (benchRunTrace cfgW6 3).1 = 1) ∧
    ((benchRunTrace cfgW6t 3).2 = false ∧
      countIf (isLaunchOf 2) (benchRunTrace cfgW6t 3).1 = 0 ∧
      countIf isRestorePreload (benchRunTrace cfgW6t 3).1 = 1) :=
  have h6 := claim_C6_wait_poll_and_abort
  have habort := h6.2.2.2 cfgW6 3 1 (by decide)
    (by
      intro j hj
      have hj0 : j = 0 := by omega
      subst hj0
      exact ⟨rfl, rfl⟩)
    (Or.inl rfl)
  have habortT := h6.2.2.2 cfgW6t 3 1 (by decide)
    (by
      intro j hj
      have hj0 : j = 0 := by omega
      subst hj0
      exact ⟨rfl, rfl⟩)
    (Or.inr rfl)
  ⟨h6.2.1 (fun _ => false) (fun _ => true) 0 (by decide)
      (fun u _ => rfl) (fun u hu => absurd hu (by omega)) rfl,
    h6.1 (fun _ => false) (fun _ => false) (fun t _ => ⟨rfl, rfl⟩),
    ⟨habort.1, habort.2.2.1 2 (by decide), habort.2.2.2⟩,
    ⟨habortT.1, habortT.2.2.1 2 (by decide), habortT.2.2.2⟩⟩

end Sawbuck
